import Mathlib

/-!
Shallow embedding of the metrics-aggregation core of appoptics-apm-go
(`v1/ao/internal/reporter/metrics.go`, the `reporter` package).

Conventions of the embedding:
* Go `map[string]X` tables are modelled as association lists
  (`List (String × X)`) with `lookupT` / `setEntry` mirroring map read and
  map assignment; the transaction-name map `map[string]struct{}` is
  modelled as a `Finset String` (its key set).
* Go `int`, `int64` and `time.Duration` are modelled as `Int`; the Go
  expression `duration / time.Microsecond` is truncated 64-bit division,
  modelled by `Int.tdiv`.
* Go `float64` values only flow into `Measurement.Sum`; they are modelled
  as exact rationals (`Rat`). No theorem below depends on rounding of
  sums.
* Go string comparison (`sort.Strings`) compares UTF-8 bytes, which
  orders valid strings exactly like code-point-lexicographic order; it is
  modelled by `charListLe` on `String.data`.
* Mutex locking, logging and the surrounding goroutines are not modelled:
  every function here is the body of one critical section.
* The `hdrhist` package is not part of the sources at hand; the two
  definitions marked "Modelled from the spec:" stand in for it.
-/

/-! ## Constants (`metrics.go`) -/

def metricsTransactionsMaxDefault : Int := 200

def metricsHistPrecisionDefault : Int := 2

def metricsTagNameLenghtMax : Nat := 64

def metricsTagValueLenghtMax : Nat := 255

def UnknownTransactionName : String := "unknown"

def OtherTransactionName : String := "other"

def maxPathLenForTransactionName : Nat := 3

/-! ## TransMap (the cardinality limiter) -/

/-- State of the Go `TransMap` struct: the key set of the
`transactionNames` map, the current and staged capacities, and the
overflow flag. The mutex is not modelled. -/
structure TransMap where
  transactionNames : Finset String
  currCap : Int
  nextCap : Int
  overflow : Bool
deriving DecidableEq

/-- Embedding of `NewTransMap`. -/
def NewTransMap (cap : Int) : TransMap :=
  { transactionNames := ∅, currCap := cap, nextCap := cap, overflow := false }

/-- Embedding of `TransMap.SetCap`: stages the new capacity. -/
def TransMap.SetCap (t : TransMap) (cap : Int) : TransMap :=
  { t with nextCap := cap }

/-- Embedding of `TransMap.Reset`: empties the set, promotes the staged
capacity and clears the overflow flag. -/
def TransMap.Reset (t : TransMap) : TransMap :=
  { t with transactionNames := ∅, currCap := t.nextCap, overflow := false }

/-- Embedding of `TransMap.IsWithinLimit`. Returns the Go return value
together with the state after the call. -/
def TransMap.IsWithinLimit (t : TransMap) (name : String) : Bool × TransMap :=
  if name ∈ t.transactionNames then (true, t)
  else if (t.transactionNames.card : Int) < t.currCap then
    (true, { t with transactionNames := insert name t.transactionNames })
  else (false, { t with overflow := true })

/-- Embedding of `TransMap.Overflow`. -/
def TransMap.Overflow (t : TransMap) : Bool := t.overflow

/-- One operation on a `TransMap`, for stating trace invariants. -/
inductive TransOp where
  | isWithinLimit (name : String)
  | setCap (n : Int)
  | reset
deriving DecidableEq

/-- State transition of a single `TransMap` operation. -/
def TransMap.step (t : TransMap) : TransOp → TransMap
  | .isWithinLimit name => (t.IsWithinLimit name).2
  | .setCap n => t.SetCap n
  | .reset => t.Reset

/-- Run a sequence of `TransMap` operations. -/
def TransMap.run (t : TransMap) (ops : List TransOp) : TransMap :=
  ops.foldl TransMap.step t

/-- An operation stages only non-negative capacities. -/
def TransOp.capNonneg : TransOp → Prop
  | .setCap n => 0 ≤ n
  | _ => True

instance : DecidablePred TransOp.capNonneg := fun op =>
  match op with
  | .isWithinLimit _ => Decidable.isTrue trivial
  | .setCap n => inferInstanceAs (Decidable (0 ≤ n))
  | .reset => Decidable.isTrue trivial

/-! ## GetTransactionFromPath -/

/-- Model of Go `strings.Split` for a one-character separator, working on
the character list of the string. `strings.Split("", sep)` is `[""]` and
separators produce empty components, exactly as in Go. -/
def goSplit (sep : Char) : List Char → List (List Char)
  | [] => [[]]
  | c :: cs =>
    if c = sep then [] :: goSplit sep cs
    else
      match goSplit sep cs with
      | [] => [[c]]
      | h :: t => (c :: h) :: t

/-- Embedding of `GetTransactionFromPath`: split on `/`, keep at most the
first `maxPathLenForTransactionName` components of the split, and join
them back with `/` (Go `strings.Join`). -/
def GetTransactionFromPath (path : String) : String :=
  if path = "" ∨ path = "/" then "/"
  else
    let p := (goSplit '/' path.data).map (fun cs => String.mk cs)
    let lp := min p.length maxPathLenForTransactionName
    String.intercalate "/" (p.take lp)

/-! ## Byte-order string comparison and sorting (Go `sort.Strings`) -/

/-- Lexicographic comparison of character lists; models Go byte-wise
string comparison on valid UTF-8 strings. -/
def charListLe : List Char → List Char → Bool
  | [], _ => true
  | _ :: _, [] => false
  | a :: as, b :: bs => if a < b then true else if b < a then false else charListLe as bs

/-- Go string order `a <= b`. -/
def strLe (a b : String) : Bool := charListLe a.data b.data

/-- The ordering relation used for `sort.Strings`. -/
def strLeRel (a b : String) : Prop := strLe a b = true

instance : DecidableRel strLeRel := fun a b =>
  inferInstanceAs (Decidable (strLe a b = true))

/-- Model of Go `sort.Strings`: sort a list of strings in byte order. -/
def sortStrings (l : List String) : List String :=
  List.insertionSort strLeRel l

/-! ## Association-list model of Go maps -/

/-- Read a key from a Go map: `v, ok := m[id]`. -/
def lookupT {α : Type} : List (String × α) → String → Option α
  | [], _ => none
  | kv :: rest, id => if kv.1 = id then some kv.2 else lookupT rest id

/-- Write a key into a Go map: `m[id] = v`. Replaces the binding if the
key is present, otherwise appends it. -/
def setEntry {α : Type} : List (String × α) → String → α → List (String × α)
  | [], id, m => [(id, m)]
  | kv :: rest, id, m => if kv.1 = id then (kv.1, m) :: rest else kv :: setEntry rest id m

/-! ## Measurements -/

/-- Embedding of the `Measurement` struct. `Tags` holds the key-value
pairs of the Go tag map and `Sum` models the `float64` sum exactly. -/
structure Measurement where
  Name : String
  Tags : List (String × String)
  Count : Int
  Sum : Rat
  ReportSum : Bool
deriving DecidableEq

/-- Rendering of one tag pair for the identity string: `k + ":" + v`. -/
def tagConcat (kv : String × String) : String := kv.1 ++ ":" ++ kv.2

/-- The identity string assembled by `recordMeasurement`:
`name + "&" + strconv.FormatBool(reportValue) + "&"` followed by the
sorted rendered tags, each followed by `"&"`. -/
def measurementId (name : String) (reportValue : Bool) (tags : List (String × String)) : String :=
  let base := name ++ "&" ++ (if reportValue then "true" else "false") ++ "&"
  let tagsSorted := sortStrings (tags.map tagConcat)
  tagsSorted.foldl (fun id t => id ++ t ++ "&") base

/-- Embedding of `recordMeasurement`: look up or create the entry for the
identity string, then add `count` to `Count` and `value` to `Sum`. The
`tags` argument stands for the contents of the Go tag map in its
(arbitrary) iteration order. -/
def recordMeasurement (me : List (String × Measurement)) (name : String)
    (tags : List (String × String)) (value : Rat) (count : Int) (reportValue : Bool) :
    List (String × Measurement) :=
  let id := measurementId name reportValue tags
  let m : Measurement :=
    match lookupT me id with
    | some m => m
    | none => { Name := name, Tags := tags, Count := 0, Sum := 0, ReportSum := reportValue }
  setEntry me id { m with Count := m.Count + count, Sum := m.Sum + value }

/-! ## Histograms -/

def histLowestDiscernible : Int := 1

def histHighestTrackable : Int := 3600000000

/-- Modelled from the spec: the `hdrhist` package is not among the given
sources. A histogram distribution is modelled as the list of recorded
values; recording a value above the highest trackable value
(3 600 000 000 µs) fails and the observation is discarded, every other
observation is kept. -/
def histRecord (h : List Int) (v : Int) : Option (List Int) :=
  if v > histHighestTrackable then none else some (h ++ [v])

/-- Embedding of the `histogram` struct; `hist` is the spec-modelled
distribution in place of `*hdrhist.Hist`. -/
structure histogram where
  hist : List Int
  tags : List (String × String)
deriving DecidableEq

/-- Embedding of the `histograms` collection struct (map plus configured
precision; the mutex is not modelled). The precision only configures the
spec-modelled distribution, whose model ignores it. -/
structure histograms where
  histograms : List (String × histogram)
  precision : Int
deriving DecidableEq

/-- Embedding of `recordHistogram`: look up or lazily create the entry
for `name` (tagging it with `TransactionName` unless `name` is empty),
then record `int64(duration / time.Microsecond)` into the distribution.
A failed recording is recovered from: the (possibly fresh) entry stays,
the observation is dropped. -/
def recordHistogram (hi : histograms) (name : String) (duration : Int) : histograms :=
  let id := name
  let tags := if name ≠ "" then [("TransactionName", name)] else []
  let h : histogram :=
    match lookupT hi.histograms id with
    | some h => h
    | none => { hist := [], tags := tags }
  match histRecord h.hist (Int.tdiv duration 1000) with
  | some data => { hi with histograms := setEntry hi.histograms id { h with hist := data } }
  | none => { hi with histograms := setEntry hi.histograms id h }

/-! ## HTTP span messages and their processing -/

/-- Embedding of `BaseSpanMessage`. `Duration` is in nanoseconds. -/
structure BaseSpanMessage where
  Duration : Int
  HasError : Bool
deriving DecidableEq

/-- Embedding of `HTTPSpanMessage`. -/
structure HTTPSpanMessage extends BaseSpanMessage where
  Transaction : String
  Path : String
  Status : Int
  Host : String
  Method : String
deriving DecidableEq

/-- The package-level mutable state touched by `HTTPSpanMessage.process`:
the globals `mTransMap`, `metricsHTTPMeasurements` and
`metricsHTTPHistograms`. -/
structure MetricsState where
  mTransMap : TransMap
  metricsHTTPMeasurements : List (String × Measurement)
  metricsHTTPHistograms : histograms
deriving DecidableEq

/-- Embedding of `HTTPSpanMessage.processMeasurements`: record the
primary `TransactionName` series and the `HttpMethod`, `HttpStatus` and
(on error) `Errors` fan-out series, all named `TransactionResponseTime`
with value `float64(s.Duration)`, count 1 and the sum reported. -/
def HTTPSpanMessage.processMeasurements (s : HTTPSpanMessage) (transactionName : String)
    (me : List (String × Measurement)) : List (String × Measurement) :=
  let name := "TransactionResponseTime"
  let duration : Rat := (s.Duration : Rat)
  let primaryTags := [("TransactionName", transactionName)]
  let me := recordMeasurement me name primaryTags duration 1 true
  let me := recordMeasurement me name (primaryTags ++ [("HttpMethod", s.Method)]) duration 1 true
  let me := recordMeasurement me name (primaryTags ++ [("HttpStatus", toString s.Status)]) duration 1 true
  if s.HasError then
    recordMeasurement me name (primaryTags ++ [("Errors", "true")]) duration 1 true
  else me

/-- Embedding of `HTTPSpanMessage.process`: always record the overall
histogram; for a non-"unknown" transaction attempt admission and record
either the named histogram and measurements or the "other" measurements;
for "unknown" bypass admission and record the "unknown" measurements. -/
def HTTPSpanMessage.process (s : HTTPSpanMessage) (st : MetricsState) : MetricsState :=
  let st1 := { st with metricsHTTPHistograms := recordHistogram st.metricsHTTPHistograms "" s.Duration }
  if s.Transaction ≠ UnknownTransactionName then
    let r := st1.mTransMap.IsWithinLimit s.Transaction
    let st2 := { st1 with mTransMap := r.2 }
    if r.1 then
      { st2 with
        metricsHTTPHistograms := recordHistogram st2.metricsHTTPHistograms s.Transaction s.Duration,
        metricsHTTPMeasurements := s.processMeasurements s.Transaction st2.metricsHTTPMeasurements }
    else
      { st2 with
        metricsHTTPMeasurements := s.processMeasurements OtherTransactionName st2.metricsHTTPMeasurements }
  else
    { st1 with
      metricsHTTPMeasurements := s.processMeasurements UnknownTransactionName st1.metricsHTTPMeasurements }

/-! ## Event queue statistics -/

/-- Embedding of the `eventQueueStats` counters. -/
structure eventQueueStats where
  numSent : Int
  numOverflowed : Int
  numFailed : Int
  totalEvents : Int
  queueLargest : Int
deriving DecidableEq

/-- Embedding of `eventQueueStats.copyAndReset`: each field is swapped
with zero; the first component is the returned copy, the second the
state left behind. -/
def eventQueueStats.copyAndReset (s : eventQueueStats) : eventQueueStats × eventQueueStats :=
  ({ numSent := s.numSent, numOverflowed := s.numOverflowed, numFailed := s.numFailed,
     totalEvents := s.totalEvents, queueLargest := s.queueLargest },
   { numSent := 0, numOverflowed := 0, numFailed := 0, totalEvents := 0, queueLargest := 0 })

/-! ## Flush-time BSON encoding of histograms -/

/-- One BSON array element produced by `addHistogramToBSON`: the array
key (the running index), the fixed metric name, the compressed encoding
and the (truncated) tags. -/
structure HistMsgEntry where
  key : String
  name : String
  value : String
  tags : List (String × String)
deriving DecidableEq

/-- Tag truncation applied when emitting tags: keys are capped at 64 and
values at 255 characters (Go slices bytes; on ASCII tags this is the
same). -/
def truncTag (kv : String × String) : String × String :=
  ((if kv.1.length > metricsTagNameLenghtMax then kv.1.take metricsTagNameLenghtMax else kv.1),
   (if kv.2.length > metricsTagValueLenghtMax then kv.2.take metricsTagValueLenghtMax else kv.2))

/-- Embedding of `addHistogramToBSON`. The compressed encoder
(`hdrhist.EncodeCompressed`, not among the given sources) is passed as a
parameter so the theorems cover every possible encoder outcome. On an
encoding error the function logs and returns before touching the buffer
or the index; on success it appends one element and increments the
index. -/
def addHistogramToBSON (encode : List Int → Except String String)
    (bbuf : List HistMsgEntry) (index : Int) (h : histogram) :
    List HistMsgEntry × Int :=
  match encode h.hist with
  | .error _ => (bbuf, index)
  | .ok data =>
      (bbuf ++ [{ key := toString index, name := "TransactionResponseTime", value := data,
                  tags := h.tags.map truncTag }],
       index + 1)

/-- The flush loop of `generateMetricsMessage` over the histogram table:
`for _, h := range metricsHTTPHistograms.histograms { addHistogramToBSON(bbuf, &index, h) }`. -/
def addHistogramsToBSON (encode : List Int → Except String String)
    (acc : List HistMsgEntry × Int) (hs : List histogram) : List HistMsgEntry × Int :=
  hs.foldl (fun acc h => addHistogramToBSON encode acc.1 acc.2 h) acc

/-! ## Helper lemmas -/

theorem lookupT_setEntry_self {α : Type} (t : List (String × α)) (id : String) (m : α) :
    lookupT (setEntry t id m) id = some m := by
  induction t with
  | nil => simp [setEntry, lookupT]
  | cons kv rest ih =>
    by_cases h : kv.1 = id
    · simp [setEntry, lookupT, h]
    · simp [setEntry, lookupT, h, ih]

theorem keys_setEntry_congr {α : Type} (t : List (String × α)) (id : String) (m₁ m₂ : α) :
    (setEntry t id m₁).map Prod.fst = (setEntry t id m₂).map Prod.fst := by
  induction t with
  | nil => simp [setEntry]
  | cons kv rest ih =>
    by_cases h : kv.1 = id <;> simp [setEntry, h, ih]

theorem take_min_length {α : Type} (l : List α) (n : Nat) : l.take (min l.length n) = l.take n := by
  rcases le_total l.length n with h | h
  · rw [min_eq_left h, List.take_length, List.take_of_length_le h]
  · rw [min_eq_right h]

theorem charListLe_total : ∀ as bs : List Char, charListLe as bs = true ∨ charListLe bs as = true
  | [], _ => Or.inl rfl
  | _ :: _, [] => Or.inr rfl
  | a :: as, b :: bs => by
    rcases lt_trichotomy a b with h | h | h
    · left; simp [charListLe, h]
    · subst h
      rcases charListLe_total as bs with ih | ih
      · left; simp [charListLe, lt_irrefl, ih]
      · right; simp [charListLe, lt_irrefl, ih]
    · right; simp [charListLe, h]

theorem charListLe_trans : ∀ as bs cs : List Char,
    charListLe as bs = true → charListLe bs cs = true → charListLe as cs = true
  | [], _, cs => fun _ _ => rfl
  | _ :: _, [], _ => fun h _ => by simp [charListLe] at h
  | _ :: _, _ :: _, [] => fun _ h => by simp [charListLe] at h
  | a :: as, b :: bs, c :: cs => fun h1 h2 => by
    simp only [charListLe] at h1 h2 ⊢
    rcases lt_trichotomy a b with hab | hab | hab
    · rcases lt_trichotomy b c with hbc | hbc | hbc
      · simp [lt_trans hab hbc]
      · subst hbc; simp [hab]
      · rw [if_neg (lt_asymm hbc), if_pos hbc] at h2
        exact absurd h2 Bool.false_ne_true
    · subst hab
      rw [if_neg (lt_irrefl a), if_neg (lt_irrefl a)] at h1
      rcases lt_trichotomy a c with hac | hac | hac
      · simp [hac]
      · subst hac
        rw [if_neg (lt_irrefl a), if_neg (lt_irrefl a)] at h2 ⊢
        exact charListLe_trans as bs cs h1 h2
      · rw [if_neg (lt_asymm hac), if_pos hac] at h2
        exact absurd h2 Bool.false_ne_true
    · rw [if_neg (lt_asymm hab), if_pos hab] at h1
      exact absurd h1 Bool.false_ne_true

theorem charListLe_antisymm : ∀ as bs : List Char,
    charListLe as bs = true → charListLe bs as = true → as = bs
  | [], [] => fun _ _ => rfl
  | [], _ :: _ => fun _ h => by simp [charListLe] at h
  | _ :: _, [] => fun h _ => by simp [charListLe] at h
  | a :: as, b :: bs => fun h1 h2 => by
    simp only [charListLe] at h1 h2
    rcases lt_trichotomy a b with hab | hab | hab
    · rw [if_neg (lt_asymm hab), if_pos hab] at h2
      exact absurd h2 Bool.false_ne_true
    · subst hab
      rw [if_neg (lt_irrefl a), if_neg (lt_irrefl a)] at h1 h2
      rw [charListLe_antisymm as bs h1 h2]
    · rw [if_neg (lt_asymm hab), if_pos hab] at h1
      exact absurd h1 Bool.false_ne_true

theorem sortStrings_sorted (l : List String) : List.Sorted strLeRel (sortStrings l) :=
  @List.sorted_insertionSort String strLeRel _
    ⟨fun a b => charListLe_total a.data b.data⟩
    ⟨fun _ _ _ h1 h2 => charListLe_trans _ _ _ h1 h2⟩ l

theorem sortStrings_perm (l : List String) : (sortStrings l).Perm l :=
  List.perm_insertionSort strLeRel l

theorem sortStrings_eq_of_perm {l1 l2 : List String} (h : l1.Perm l2) :
    sortStrings l1 = sortStrings l2 :=
  @List.eq_of_perm_of_sorted String strLeRel
    ⟨fun _ _ h1 h2 => String.ext (charListLe_antisymm _ _ h1 h2)⟩ _ _
    ((sortStrings_perm l1).trans (h.trans (sortStrings_perm l2).symm))
    (sortStrings_sorted l1) (sortStrings_sorted l2)

/-! ## Claim theorems -/

/-- C1: admission contract of `TransMap.IsWithinLimit`: an already
registered name is admitted and changes nothing; an unregistered name is
registered and admitted while the set is strictly below the current
capacity; otherwise the call sets the overflow flag, returns false and
does not register the name. With capacity 3, admitting t1, t2, t3
succeeds with overflow false, t4 fails and sets overflow, re-admitting
t2 succeeds with overflow still true, and `Reset` clears the flag and
empties the set. -/
theorem transMap_isWithinLimit_contract :
    (∀ (t : TransMap) (name : String), name ∈ t.transactionNames →
      t.IsWithinLimit name = (true, t)) ∧
    (∀ (t : TransMap) (name : String), name ∉ t.transactionNames →
      (t.transactionNames.card : Int) < t.currCap →
      t.IsWithinLimit name =
        (true, { t with transactionNames := insert name t.transactionNames })) ∧
    (∀ (t : TransMap) (name : String), name ∉ t.transactionNames →
      ¬ (t.transactionNames.card : Int) < t.currCap →
      t.IsWithinLimit name = (false, { t with overflow := true })) ∧
    (let r1 := (NewTransMap 3).IsWithinLimit "t1"
     let r2 := r1.2.IsWithinLimit "t2"
     let r3 := r2.2.IsWithinLimit "t3"
     let r4 := r3.2.IsWithinLimit "t4"
     let r5 := r4.2.IsWithinLimit "t2"
     r1.1 = true ∧ r2.1 = true ∧ r3.1 = true ∧ r3.2.overflow = false ∧
     r4.1 = false ∧ r4.2.overflow = true ∧ r5.1 = true ∧ r5.2.overflow = true ∧
     r5.2.Reset.overflow = false ∧ r5.2.Reset.transactionNames = ∅) := by
  refine ⟨?_, ?_, ?_, by decide⟩
  · intro t name h; simp [TransMap.IsWithinLimit, h]
  · intro t name h hlt; simp [TransMap.IsWithinLimit, h, hlt]
  · intro t name h hlt; simp [TransMap.IsWithinLimit, h, hlt]

/-- Witness for C1: admitting a name that is already registered returns
true and leaves the state unchanged. -/
theorem transMap_isWithinLimit_contract_witness :
    TransMap.IsWithinLimit ⟨{"x"}, 3, 3, false⟩ "x" = (true, ⟨{"x"}, 3, 3, false⟩) :=
  transMap_isWithinLimit_contract.1 ⟨{"x"}, 3, 3, false⟩ "x" (by decide)

/-- C2 counterexample: `GetTransactionFromPath "/a/b/c/d#frag"` is
"/a/b", not "/a/b/c", because the leading slash contributes an empty
first component to the split and the function keeps at most 3 split
components. -/
theorem getTransactionFromPath_claim_false :
    GetTransactionFromPath "/a/b/c/d#frag" ≠ "/a/b/c" := by decide

/-- C2 (amended): deriving a transaction name from a request path keeps
at most the first 3 components of the `/`-split of the path, where the
leading empty component of a path starting with `/` counts as one
component (so at most 2 named segments); the empty and root paths map to
"/", and "/a/b/c/d#frag" maps to "/a/b". -/
theorem getTransactionFromPath_first3_components :
    GetTransactionFromPath "" = "/" ∧
    GetTransactionFromPath "/" = "/" ∧
    GetTransactionFromPath "/a/b/c/d#frag" = "/a/b" ∧
    ∀ path : String, ¬ (path = "" ∨ path = "/") →
      GetTransactionFromPath path =
        String.intercalate "/"
          (((goSplit '/' path.data).map (fun cs => String.mk cs)).take 3) := by
  refine ⟨by decide, by decide, by decide, fun path h => ?_⟩
  simp only [GetTransactionFromPath, if_neg h, maxPathLenForTransactionName]
  rw [take_min_length]

/-- Witness for C2 (amended): a concrete non-root path. -/
theorem getTransactionFromPath_first3_components_witness :
    GetTransactionFromPath "/x" =
      String.intercalate "/" (((goSplit '/' "/x".data).map (fun cs => String.mk cs)).take 3) :=
  getTransactionFromPath_first3_components.2.2.2 "/x" (by decide)

/-- C5 counterexample: starting from capacity 0 (non-negative), staging
a negative capacity with `SetCap` and then `Reset` leaves an empty set
and a current capacity of -1, so the size 0 exceeds the capacity. -/
theorem transMap_card_le_cap_claim_false :
    ¬ ((((NewTransMap 0).run [TransOp.setCap (-1), TransOp.reset]).transactionNames.card : Int) ≤
        ((NewTransMap 0).run [TransOp.setCap (-1), TransOp.reset]).currCap) := by decide

/-- Invariant used for the amended C5: the set size is bounded by the
current capacity and the staged capacity is non-negative. -/
def TransInv (t : TransMap) : Prop :=
  (t.transactionNames.card : Int) ≤ t.currCap ∧ 0 ≤ t.nextCap

theorem transInv_step (t : TransMap) (op : TransOp) (ht : TransInv t) (hop : op.capNonneg) :
    TransInv (t.step op) := by
  obtain ⟨hcard, hnext⟩ := ht
  cases op with
  | isWithinLimit name =>
    simp only [TransMap.step, TransMap.IsWithinLimit]
    split_ifs with hmem hlt
    · exact ⟨hcard, hnext⟩
    · refine ⟨?_, hnext⟩
      calc ((insert name t.transactionNames).card : Int)
          ≤ (t.transactionNames.card : Int) + 1 := by
            exact_mod_cast Finset.card_insert_le name t.transactionNames
        _ ≤ t.currCap := by omega
    · exact ⟨hcard, hnext⟩
  | setCap n => exact ⟨hcard, hop⟩
  | reset => exact ⟨by simpa [TransMap.Reset] using hnext, hnext⟩

theorem transInv_run (t : TransMap) (ops : List TransOp) (ht : TransInv t)
    (hops : ∀ op ∈ ops, op.capNonneg) : TransInv (t.run ops) := by
  induction ops generalizing t with
  | nil => exact ht
  | cons op rest ih =>
    exact ih (t.step op) (transInv_step t op ht (hops op (by simp)))
      (fun o ho => hops o (by simp [ho]))

/-- C5 (amended): for every sequence of `IsWithinLimit`, `SetCap` and
`Reset` operations in which every staged capacity is non-negative,
starting from a `TransMap` created with a non-negative capacity, the
number of registered transaction names never exceeds the current
capacity. (The counterexample above shows the unamended claim fails when
`SetCap` stages a negative capacity.) -/
theorem transMap_card_le_cap (cap : Int) (hcap : 0 ≤ cap) (ops : List TransOp)
    (hops : ∀ op ∈ ops, op.capNonneg) :
    (((NewTransMap cap).run ops).transactionNames.card : Int) ≤
      ((NewTransMap cap).run ops).currCap :=
  (transInv_run (NewTransMap cap) ops ⟨by simpa [NewTransMap] using hcap, hcap⟩ hops).1

/-- Witness for C5 (amended): a concrete run mixing admissions, a staged
capacity change and a reset. -/
theorem transMap_card_le_cap_witness :
    (((NewTransMap 2).run
        [TransOp.isWithinLimit "a", TransOp.setCap 1, TransOp.reset,
         TransOp.isWithinLimit "b"]).transactionNames.card : Int) ≤
      ((NewTransMap 2).run
        [TransOp.isWithinLimit "a", TransOp.setCap 1, TransOp.reset,
         TransOp.isWithinLimit "b"]).currCap :=
  transMap_card_le_cap 2 (by decide)
    [TransOp.isWithinLimit "a", TransOp.setCap 1, TransOp.reset, TransOp.isWithinLimit "b"]
    (by decide)

/-- C6: `SetCap` stages the new capacity in `nextCap` only: the
registered set, the current capacity, the overflow flag and the result
of any admission are unchanged by it; a subsequent `Reset` promotes the
staged value to the current capacity while emptying the set and clearing
the overflow flag. -/
theorem transMap_setCap_deferred (t : TransMap) (n : Int) :
    (t.SetCap n).transactionNames = t.transactionNames ∧
    (t.SetCap n).currCap = t.currCap ∧
    (t.SetCap n).overflow = t.overflow ∧
    (t.SetCap n).nextCap = n ∧
    (∀ name, ((t.SetCap n).IsWithinLimit name).1 = (t.IsWithinLimit name).1) ∧
    ((t.SetCap n).Reset).currCap = n ∧
    ((t.SetCap n).Reset).transactionNames = ∅ ∧
    ((t.SetCap n).Reset).overflow = false := by
  refine ⟨rfl, rfl, rfl, rfl, ?_, rfl, rfl, rfl⟩
  intro name
  simp only [TransMap.SetCap, TransMap.IsWithinLimit]
  split_ifs <;> rfl

/-- C7: `copyAndReset` returns a copy holding exactly the prior values
of the five queue counters and leaves every counter at zero, so a read
of any counter immediately afterwards returns zero. -/
theorem eventQueueStats_copyAndReset_flush (s : eventQueueStats) :
    (s.copyAndReset).1 = s ∧
    (s.copyAndReset).2.numSent = 0 ∧
    (s.copyAndReset).2.numOverflowed = 0 ∧
    (s.copyAndReset).2.numFailed = 0 ∧
    (s.copyAndReset).2.totalEvents = 0 ∧
    (s.copyAndReset).2.queueLargest = 0 :=
  ⟨rfl, rfl, rfl, rfl, rfl, rfl⟩

/-- C10: `recordHistogram` converts the span duration from nanoseconds
to microseconds with truncating integer division (which on non-negative
durations is the floor of d/1000) before recording; a duration strictly
shorter than one microsecond is recorded as exactly 0 — the observation
is kept, not dropped — and in general an in-range duration of d
nanoseconds is recorded as d/1000 (rounded down) microseconds. -/
theorem recordHistogram_truncating_division (hi : histograms) (name : String) (d : Int)
    (hd : 0 ≤ d) :
    Int.tdiv d 1000 = d / 1000 ∧
    (Int.tdiv d 1000 ≤ histHighestTrackable →
      (lookupT (recordHistogram hi name d).histograms name).map histogram.hist =
        some ((((lookupT hi.histograms name).map histogram.hist).getD []) ++ [Int.tdiv d 1000])) ∧
    (d < 1000 →
      (lookupT (recordHistogram hi name d).histograms name).map histogram.hist =
        some ((((lookupT hi.histograms name).map histogram.hist).getD []) ++ [0])) := by
  have key : ¬ Int.tdiv d 1000 > histHighestTrackable →
      (lookupT (recordHistogram hi name d).histograms name).map histogram.hist =
        some ((((lookupT hi.histograms name).map histogram.hist).getD []) ++ [Int.tdiv d 1000]) := by
    intro hle
    cases hl : lookupT hi.histograms name with
    | none => simp [recordHistogram, histRecord, hl, hle, lookupT_setEntry_self]
    | some h => simp [recordHistogram, histRecord, hl, hle, lookupT_setEntry_self]
  refine ⟨Int.tdiv_eq_ediv hd (by norm_num), fun hle => key (not_lt.mpr hle), fun hlt => ?_⟩
  have hz : Int.tdiv d 1000 = 0 := by
    rw [Int.tdiv_eq_ediv hd (by norm_num)]
    exact Int.ediv_eq_zero_of_lt hd (by omega)
  have hres := key (by rw [hz]; decide)
  rw [hz] at hres
  exact hres

/-- Witness for C10: a 999 ns duration is recorded as the value 0 in a
fresh histogram table. -/
theorem recordHistogram_truncating_division_witness :
    (lookupT (recordHistogram ⟨[], 2⟩ "t" 999).histograms "t").map histogram.hist = some [0] := by
  have h := (recordHistogram_truncating_division ⟨[], 2⟩ "t" 999 (by decide)).2.2 (by decide)
  simpa [lookupT] using h

/-- Convenience unfolding of the flush loop over histograms. -/
theorem addHistogramsToBSON_cons (encode : List Int → Except String String)
    (acc : List HistMsgEntry × Int) (h : histogram) (rest : List histogram) :
    addHistogramsToBSON encode acc (h :: rest) =
      addHistogramsToBSON encode (addHistogramToBSON encode acc.1 acc.2 h) rest := rfl

/-- C8: a histogram whose compressed encoding fails at flush time is
confined: `addHistogramToBSON` appends nothing for that entry (the
message buffer and the running array index are unchanged), and the flush
loop over the histogram table produces exactly the entries whose
encoding succeeds, so the remaining entries and the rest of the message
are still produced. (The log message is a side effect outside this
model.) -/
theorem addHistogramToBSON_error_confined :
    (∀ (encode : List Int → Except String String) (bbuf : List HistMsgEntry) (index : Int)
        (h : histogram) (e : String), encode h.hist = Except.error e →
      addHistogramToBSON encode bbuf index h = (bbuf, index)) ∧
    (∀ (encode : List Int → Except String String) (acc : List HistMsgEntry × Int)
        (hs : List histogram),
      addHistogramsToBSON encode acc hs =
        addHistogramsToBSON encode acc (hs.filter fun h => (encode h.hist).toOption.isSome)) := by
  constructor
  · intro encode bbuf index h e he
    simp [addHistogramToBSON, he]
  · intro encode acc hs
    induction hs generalizing acc with
    | nil => rfl
    | cons h rest ih =>
      rw [List.filter_cons]
      cases he : encode h.hist with
      | error e =>
        have hstep : addHistogramToBSON encode acc.1 acc.2 h = acc := by
          simp [addHistogramToBSON, he]
        simp only [he, Except.toOption, Option.isSome_none, Bool.false_eq_true, if_false,
          addHistogramsToBSON_cons, hstep]
        exact ih acc
      | ok data =>
        simp only [he, Except.toOption, Option.isSome_some, if_true,
          addHistogramsToBSON_cons]
        exact ih _

/-- Witness for C8: a failing encoder leaves the buffer and index
untouched. -/
theorem addHistogramToBSON_error_confined_witness :
    addHistogramToBSON (fun _ => Except.error "enc") [] 0 ⟨[1], []⟩ = ([], 0) :=
  addHistogramToBSON_error_confined.1 (fun _ => Except.error "enc") [] 0 ⟨[1], []⟩ "enc" rfl

/-- C3: the measurement identity is order-independent: for tag lists
that are equal up to permutation (the same set of key-value pairs in any
iteration order), `recordMeasurement` computes the same identity string,
touches the same key set of the table, and produces an entry with the
same name, count, sum and report flag at that shared identity. -/
theorem recordMeasurement_order_independent (name : String) (rv : Bool)
    (t1 t2 : List (String × String)) (hperm : t1.Perm t2) :
    measurementId name rv t1 = measurementId name rv t2 ∧
    ∀ (me : List (String × Measurement)) (v : Rat) (c : Int),
      (recordMeasurement me name t1 v c rv).map Prod.fst =
        (recordMeasurement me name t2 v c rv).map Prod.fst ∧
      (lookupT (recordMeasurement me name t1 v c rv) (measurementId name rv t1)).map
          (fun m => (m.Name, m.Count, m.Sum, m.ReportSum)) =
        (lookupT (recordMeasurement me name t2 v c rv) (measurementId name rv t1)).map
          (fun m => (m.Name, m.Count, m.Sum, m.ReportSum)) := by
  have hid : measurementId name rv t1 = measurementId name rv t2 := by
    unfold measurementId
    rw [sortStrings_eq_of_perm (hperm.map tagConcat)]
  refine ⟨hid, fun me v c => ?_⟩
  simp only [recordMeasurement, ← hid]
  cases hl : lookupT me (measurementId name rv t1) with
  | none =>
    constructor
    · exact keys_setEntry_congr me (measurementId name rv t1) _ _
    · simp [lookupT_setEntry_self]
  | some m =>
    constructor
    · exact keys_setEntry_congr me (measurementId name rv t1) _ _
    · simp [lookupT_setEntry_self]

/-- Witness for C3: two orderings of the same two tags give the same
identity string. -/
theorem recordMeasurement_order_independent_witness :
    measurementId "m" true [("a", "1"), ("b", "2")] =
      measurementId "m" true [("b", "2"), ("a", "1")] :=
  (recordMeasurement_order_independent "m" true [("a", "1"), ("b", "2")]
    [("b", "2"), ("a", "1")] (by decide)).1

/-- C9: the identity string is not injective: the one-tag maps
(a:b)=c and a=(b:c) differ as sets of pairs yet render to the same
identity "m&true&a:b:c&", so two observations aggregate into one shared
entry whose stored tags are those of the first observation and whose
count is 2. -/
theorem measurementId_not_injective :
    measurementId "m" true [("a:b", "c")] = measurementId "m" true [("a", "b:c")] ∧
    ("a:b", "c") ∉ ([("a", "b:c")] : List (String × String)) ∧
    (recordMeasurement (recordMeasurement [] "m" [("a:b", "c")] 1 1 true)
        "m" [("a", "b:c")] 1 1 true).map
      (fun kv => (kv.1, kv.2.Name, kv.2.Tags, kv.2.Count, kv.2.ReportSum)) =
      [("m&true&a:b:c&", "m", [("a:b", "c")], 2, true)] :=
  ⟨by decide, by decide, by decide⟩

/-- C4: span routing of `HTTPSpanMessage.process`: every span records
its duration into the global histogram (name ""); a transaction other
than the "unknown" sentinel that is admitted by the registry also
updates the per-transaction histogram and the measurements keyed by its
name; when admission fails only the measurements keyed by the "other"
sentinel are additionally updated (no dedicated histogram); for the
"unknown" sentinel admission is bypassed (the registry is untouched) and
only the measurements keyed by "unknown" are additionally updated. -/
theorem httpSpanMessage_process_routing (s : HTTPSpanMessage) (st : MetricsState) :
    (s.Transaction = UnknownTransactionName →
      s.process st = { st with
        metricsHTTPHistograms := recordHistogram st.metricsHTTPHistograms "" s.Duration,
        metricsHTTPMeasurements :=
          s.processMeasurements UnknownTransactionName st.metricsHTTPMeasurements }) ∧
    (s.Transaction ≠ UnknownTransactionName →
      (st.mTransMap.IsWithinLimit s.Transaction).1 = true →
      s.process st = {
        mTransMap := (st.mTransMap.IsWithinLimit s.Transaction).2,
        metricsHTTPHistograms :=
          recordHistogram (recordHistogram st.metricsHTTPHistograms "" s.Duration)
            s.Transaction s.Duration,
        metricsHTTPMeasurements :=
          s.processMeasurements s.Transaction st.metricsHTTPMeasurements }) ∧
    (s.Transaction ≠ UnknownTransactionName →
      (st.mTransMap.IsWithinLimit s.Transaction).1 = false →
      s.process st = {
        mTransMap := (st.mTransMap.IsWithinLimit s.Transaction).2,
        metricsHTTPHistograms := recordHistogram st.metricsHTTPHistograms "" s.Duration,
        metricsHTTPMeasurements :=
          s.processMeasurements OtherTransactionName st.metricsHTTPMeasurements }) := by
  refine ⟨fun hu => ?_, fun hn ha => ?_, fun hn ha => ?_⟩
  · simp [HTTPSpanMessage.process, hu]
  · simp [HTTPSpanMessage.process, hn, ha]
  · simp [HTTPSpanMessage.process, hn, ha]

/-- Witness for C4: a span with the "unknown" sentinel leaves the
registry untouched. -/
theorem httpSpanMessage_process_routing_witness :
    (HTTPSpanMessage.process ⟨⟨1500, false⟩, "unknown", "", 200, "", "GET"⟩
        ⟨NewTransMap 3, [], ⟨[], 2⟩⟩).mTransMap = NewTransMap 3 := by
  have h := (httpSpanMessage_process_routing ⟨⟨1500, false⟩, "unknown", "", 200, "", "GET"⟩
      ⟨NewTransMap 3, [], ⟨[], 2⟩⟩).1 rfl
  rw [h]
